import Mathlib

/-!
Verification development for the crypto-scalping backtest pipeline
(`src/strategies/lstm_strategy.py`, `src/backtesting/backtest_runner.py`,
`src/backtesting/performance_analyzer.py`).

Prices and indicator values are embedded as exact rationals (`ℚ`); the
Python code uses floats, but every claim under study is about the algebra
and control flow of the computations, not about rounding.  Fallible or
absent values (pandas `NaN`, Python `None`) are embedded as `Option`.

The strategy, the data-preparation step and the performance analyzer are
translated directly from the source.  The bar-by-bar simulation loop and
the grid optimizer live in the external `backtesting.py` library (not part
of this repository's sources); where a claim depends on them they are
modelled from the specification, and each such definition is marked
`Modelled from the spec:` in its doc comment.
-/

/-- One prepared bar, as produced by `prepare_data_for_backtest`: the
OHLCV columns plus the indicator and forecast columns the strategy reads
(`Open, High, Low, Close, Volume, RSI, MACD, MACD_Signal, BB_Upper,
BB_Lower, Predicted_Price`). -/
structure BarRow where
  Open : ℚ
  High : ℚ
  Low : ℚ
  Close : ℚ
  Volume : ℚ
  RSI : ℚ
  MACD : ℚ
  MACD_Signal : ℚ
  BB_Upper : ℚ
  BB_Lower : ℚ
  Predicted_Price : ℚ
deriving DecidableEq, Repr

/-- The strategy parameters: the class attributes of `LSTMScalpingStrategy`
(`prediction_threshold`, `rsi_oversold`, `rsi_overbought`, `stop_loss_pct`,
`take_profit_pct`, `position_size`). -/
structure StrategyConfig where
  prediction_threshold : ℚ
  rsi_oversold : ℚ
  rsi_overbought : ℚ
  stop_loss_pct : ℚ
  take_profit_pct : ℚ
  position_size : ℚ
deriving DecidableEq, Repr

/-- Default parameter values of `LSTMScalpingStrategy`. -/
def LSTMScalpingStrategy : StrategyConfig :=
  { prediction_threshold := 2/1000
    rsi_oversold := 30
    rsi_overbought := 70
    stop_loss_pct := 5/1000
    take_profit_pct := 1/100
    position_size := 95/100 }

/-- Parameter overrides of `AggressiveLSTMStrategy`. -/
def AggressiveLSTMStrategy : StrategyConfig :=
  { LSTMScalpingStrategy with
    prediction_threshold := 1/1000
    stop_loss_pct := 3/1000
    take_profit_pct := 6/1000
    position_size := 98/100 }

/-- Parameter overrides of `ConservativeLSTMStrategy`. -/
def ConservativeLSTMStrategy : StrategyConfig :=
  { LSTMScalpingStrategy with
    prediction_threshold := 4/1000
    stop_loss_pct := 1/100
    take_profit_pct := 2/100
    position_size := 1/2 }

/-- `self.price_change_predicted` as computed in `init`:
`(predictions - current_price) / current_price`. -/
def price_change_predicted (b : BarRow) : ℚ :=
  (b.Predicted_Price - b.Close) / b.Close

/-- `_should_go_long`: prediction above threshold, RSI below overbought,
MACD above its signal line. -/
def should_go_long (cfg : StrategyConfig) (prediction rsi macd macd_signal : ℚ) : Bool :=
  let prediction_bullish := decide (prediction > cfg.prediction_threshold)
  let rsi_ok := decide (rsi < cfg.rsi_overbought)
  let macd_bullish := decide (macd > macd_signal)
  prediction_bullish && rsi_ok && macd_bullish

/-- `_should_go_short`: prediction below negative threshold, RSI above
oversold, MACD below its signal line. -/
def should_go_short (cfg : StrategyConfig) (prediction rsi macd macd_signal : ℚ) : Bool :=
  let prediction_bearish := decide (prediction < -cfg.prediction_threshold)
  let rsi_ok := decide (rsi > cfg.rsi_oversold)
  let macd_bearish := decide (macd < macd_signal)
  prediction_bearish && rsi_ok && macd_bearish

/-- Reason a closed trade records for its exit. -/
inductive ExitReason where
  | StopLoss
  | TakeProfit
  | SignalReversal
  | EndOfData
deriving DecidableEq, Repr

/-- An open position: side, fill bar and price, size fraction, units held,
and the protective stop-loss / take-profit prices attached at entry. -/
structure Position where
  is_long : Bool
  entryBar : ℕ
  entryPrice : ℚ
  size : ℚ
  units : ℚ
  sl : ℚ
  tp : ℚ
deriving DecidableEq, Repr

/-- The action the strategy takes on a bar. -/
inductive TradeAction where
  | EnterLong
  | EnterShort
  | Exit
  | Hold
deriving DecidableEq, Repr

/-- `_manage_position`: close a long when the prediction turns bearish
past the threshold, close a short when it turns bullish past it. -/
def manage_position (cfg : StrategyConfig) (b : BarRow) (p : Position) : Bool :=
  let current_prediction := price_change_predicted b
  if p.is_long && decide (current_prediction < -cfg.prediction_threshold) then
    true
  else if !p.is_long && decide (current_prediction > cfg.prediction_threshold) then
    true
  else
    false

/-- The per-bar decision of `LSTMScalpingStrategy.next`, as a function of
the strategy parameters, the number of bars seen so far (`len(self.data)`),
the current bar and the current position.  Mirrors the source exactly:
skip while fewer than two bars are available; with a position open only
`_manage_position` runs (yielding `Exit` or `Hold`); otherwise
`_should_go_long`, then `_should_go_short`, decide the entry. -/
def nextAction (cfg : StrategyConfig) (numBars : ℕ) (b : BarRow)
    (pos : Option Position) : TradeAction :=
  if numBars < 2 then .Hold
  else
    let current_prediction := price_change_predicted b
    match pos with
    | some p => if manage_position cfg b p then .Exit else .Hold
    | none =>
      if should_go_long cfg current_prediction b.RSI b.MACD b.MACD_Signal then
        .EnterLong
      else if should_go_short cfg current_prediction b.RSI b.MACD b.MACD_Signal then
        .EnterShort
      else
        .Hold

/-- A closed trade record appended to the trade log. -/
structure TradeRec where
  is_long : Bool
  entryBar : ℕ
  exitBar : ℕ
  entryPrice : ℚ
  exitPrice : ℚ
  units : ℚ
  PnL : ℚ
  reason : ExitReason
deriving DecidableEq, Repr

/-- Engine-wide configuration of `run_backtest`: starting cash and the
commission rate (the call site fixes `exclusive_orders=True` and
`trade_on_close=False`, i.e. fills on the next bar's open; those two
flags are hard-wired in the engine model below, as in the source). -/
structure EngineConfig where
  cash : ℚ
  commission : ℚ
deriving DecidableEq, Repr

/-- State of a simulation run: the open position (if any), current cash,
the trade log so far, and the recorded equity curve. -/
structure EngState where
  pos : Option Position
  cash : ℚ
  trades : List TradeRec
  equity_curve : List ℚ
deriving DecidableEq, Repr

/-- Observable per-bar events of the engine, used to state when entries
and exits happen.  `Entered t p` means the entry order was placed on bar
`t` (it fills at bar `p.entryBar`); `Exited t r` means the position was
closed by a decision or trigger on bar `t`. -/
inductive EngEvent where
  | Entered (t : ℕ) (p : Position)
  | Exited (t : ℕ) (r : ExitReason)
deriving DecidableEq, Repr

/-- +1 for a long position, -1 for a short. -/
def dir (isLong : Bool) : ℚ := if isLong then 1 else -1

/-- Modelled from the spec: the `PositionLedger.checkProtectiveOrders`
operation of the external simulation library (backtesting.py, not part of
this repository's sources).  Given the bar's high/low it reports the
protective price touched intrabar, checking the stop-loss before the
take-profit (the spec's conservative tie-break). -/
def checkProtectiveOrders (p : Position) (b : BarRow) : Option (ℚ × ExitReason) :=
  if p.is_long then
    if b.Low ≤ p.sl then some (p.sl, .StopLoss)
    else if p.tp ≤ b.High then some (p.tp, .TakeProfit)
    else none
  else
    if p.sl ≤ b.High then some (p.sl, .StopLoss)
    else if b.Low ≤ p.tp then some (p.tp, .TakeProfit)
    else none

/-- Modelled from the spec: the `PositionLedger.close` operation of the
external simulation library.  Realized P&L is
`(exit - entry) * units * direction` minus commission `rate * notional`
charged on both the entry and the exit fill; the trade is appended to the
log and the ledger returns to flat. -/
def closePosition (ecfg : EngineConfig) (s : EngState) (p : Position)
    (price : ℚ) (t : ℕ) (reason : ExitReason) : EngState :=
  let pnl := (price - p.entryPrice) * p.units * dir p.is_long
    - ecfg.commission * p.entryPrice * p.units
    - ecfg.commission * price * p.units
  { pos := none
    cash := s.cash + pnl
    trades := s.trades ++ [{ is_long := p.is_long, entryBar := p.entryBar, exitBar := t,
                             entryPrice := p.entryPrice, exitPrice := price,
                             units := p.units, PnL := pnl, reason := reason }]
    equity_curve := s.equity_curve }

/-- Modelled from the spec: the position opened by an `EnterLong` /
`EnterShort` action under next-bar-open fill timing.  The fill price is
the following bar's open; the stop-loss and take-profit prices are the
ones `_open_long` / `_open_short` attach, computed from the *signal*
bar's close (`entry_price = self.data.Close[-1]` in the source); units
are the configured equity fraction at the fill price. -/
def openedPosition (cfg : StrategyConfig) (isLong : Bool) (signalBar : BarRow)
    (fillBar : ℕ) (fillPrice : ℚ) (cash : ℚ) : Position :=
  { is_long := isLong
    entryBar := fillBar
    entryPrice := fillPrice
    size := cfg.position_size
    units := cfg.position_size * cash / fillPrice
    sl := if isLong then signalBar.Close * (1 - cfg.stop_loss_pct)
          else signalBar.Close * (1 + cfg.stop_loss_pct)
    tp := if isLong then signalBar.Close * (1 + cfg.take_profit_pct)
          else signalBar.Close * (1 - cfg.take_profit_pct) }

/-- Modelled from the spec: mark-to-market equity recorded for a bar:
cash plus the unrealized value of the open position at the bar's close
(a position whose fill bar is still in the future contributes nothing). -/
def equityAt (s : EngState) (t : ℕ) (b : BarRow) : ℚ :=
  s.cash + match s.pos with
    | some p => if p.entryBar ≤ t then (b.Close - p.entryPrice) * p.units * dir p.is_long else 0
    | none => 0

/-- Modelled from the spec: step 5 of the per-bar loop, recording the
bar's equity on the equity curve. -/
def recordEquity (s : EngState) (t : ℕ) (b : BarRow) : EngState :=
  { s with equity_curve := s.equity_curve ++ [equityAt s t b] }

/-- Modelled from the spec: one bar of the simulation loop (the loop
itself is the external backtesting.py library).  Per bar, in the spec's
order: if a position is open, check protective orders first (if triggered,
record the exit and move to the next bar); otherwise ask the strategy
(`nextAction`, translated from the source) for an action; a discretionary
`Exit` closes at the next bar's open; an entry action opens a position
filling at the next bar's open (an order placed on the final bar never
fills); finally record the bar's equity. -/
def engineStep (cfg : StrategyConfig) (ecfg : EngineConfig) (bars : List BarRow)
    (t : ℕ) (s : EngState) : EngState × List EngEvent :=
  match bars[t]? with
  | none => (s, [])
  | some b =>
    let acted : EngState × List EngEvent :=
      match s.pos with
      | some p =>
        match checkProtectiveOrders p b with
        | some (price, reason) =>
          (closePosition ecfg s p price t reason, [.Exited t reason])
        | none =>
          match nextAction cfg (t + 1) b (some p) with
          | .Exit =>
            match bars[t + 1]? with
            | some b' =>
              (closePosition ecfg s p b'.Open t .SignalReversal, [.Exited t .SignalReversal])
            | none => (s, [])
          | _ => (s, [])
      | none =>
        match nextAction cfg (t + 1) b none with
        | .EnterLong =>
          match bars[t + 1]? with
          | some b' =>
            let p := openedPosition cfg true b (t + 1) b'.Open s.cash
            ({ s with pos := some p }, [.Entered t p])
          | none => (s, [])
        | .EnterShort =>
          match bars[t + 1]? with
          | some b' =>
            let p := openedPosition cfg false b (t + 1) b'.Open s.cash
            ({ s with pos := some p }, [.Entered t p])
          | none => (s, [])
        | _ => (s, [])
    (recordEquity acted.1 t b, acted.2)

/-- Initial engine state: flat, starting cash, empty logs. -/
def initState (ecfg : EngineConfig) : EngState :=
  { pos := none, cash := ecfg.cash, trades := [], equity_curve := [] }

/-- Modelled from the spec: at end of data any open position is
force-closed at the final bar's close with reason `EndOfData`. -/
def finalizeRun (ecfg : EngineConfig) (bars : List BarRow) (s : EngState) : EngState :=
  match s.pos, bars.getLast? with
  | some p, some bl => closePosition ecfg s p bl.Close (bars.length - 1) .EndOfData
  | _, _ => s

/-- Modelled from the spec: a full simulation run, folding the per-bar
step over every bar index and force-closing at end of data. -/
def runEngine (cfg : StrategyConfig) (ecfg : EngineConfig) (bars : List BarRow) : EngState :=
  finalizeRun ecfg bars
    ((List.range bars.length).foldl (fun s t => (engineStep cfg ecfg bars t s).1)
      (initState ecfg))

/-- Mean of a list of rationals (`pandas .mean()`); the value on the empty
list is irrelevant here because every use in the source is guarded by a
non-emptiness check. -/
def qmean (l : List ℚ) : ℚ := l.sum / l.length

/-- Maximum of a list of rationals (`pandas .max()`); every use in the
source is guarded so the list is non-empty. -/
def qListMax : List ℚ → ℚ
  | [] => 0
  | x :: xs => xs.foldl max x

/-- Minimum of a list of rationals (`pandas .min()` on a non-empty
series). -/
def qListMin : List ℚ → ℚ
  | [] => 0
  | x :: xs => xs.foldl min x

/-- Sample variance (`pandas .std()` squared, `ddof = 1`); only consulted
when the list has at least two elements. -/
def sampleVar (l : List ℚ) : ℚ :=
  ((l.map (fun x => (x - qmean l) ^ 2)).sum) / ((l.length : ℚ) - 1)

/-- Exact representation of the source's `sharpe_ratio` float.  The value
`avg_return / returns.std() * sqrt(252)` is irrational in general, so the
guarded branch stores the pair (mean, sample variance) that determines it
exactly; `zero` is the source's `0` branch, taken when `std_return > 0`
is false (zero variance, or a single trade where pandas `.std()` is NaN). -/
inductive SharpeVal where
  | zero
  | annualized (avg_return varSample : ℚ)
deriving DecidableEq, Repr

/-- `running_max` helper: prefix maxima continuing from an accumulated
maximum `m`. -/
def runningMaxFrom (m : ℚ) : List ℚ → List ℚ
  | [] => []
  | x :: xs => max m x :: runningMaxFrom (max m x) xs

/-- `self.equity_curve.expanding().max()`: the running maximum of the
equity curve. -/
def running_max : List ℚ → List ℚ
  | [] => []
  | x :: xs => x :: runningMaxFrom x xs

/-- `drawdown = (self.equity_curve - running_max) / running_max * 100`. -/
def drawdown_series (eq : List ℚ) : List ℚ :=
  List.zipWith (fun e m => (e - m) / m * 100) eq (running_max eq)

/-- `drawdown.min()`: `none` encodes the NaN pandas returns on an empty
series. -/
def max_drawdown (eq : List ℚ) : Option ℚ :=
  match drawdown_series eq with
  | [] => none
  | d :: ds => some (ds.foldl min d)

/-- `drawdown[drawdown < 0].mean() if len(...) > 0 else 0`. -/
def avg_drawdown (eq : List ℚ) : ℚ :=
  let neg := (drawdown_series eq).filter (fun d => decide (d < 0))
  if neg.length > 0 then qmean neg else 0

/-- `trades['Win'].ne(trades['Win'].shift()).cumsum()` helper: `prev` is
the shifted previous flag (`none` for the leading NaN of `.shift()`,
which pandas `.ne` treats as unequal), `acc` the cumulative sum so far. -/
def streakIdsAux (prev : Option Bool) (acc : ℕ) : List Bool → List ℕ
  | [] => []
  | w :: ws =>
    let acc' := if prev = some w then acc else acc + 1
    acc' :: streakIdsAux (some w) acc' ws

/-- The `Streak` column: cumulative count of changes of the `Win` flag. -/
def streakIds (ws : List Bool) : List ℕ := streakIdsAux none 0 ws

/-- `groupby('Streak').size()`: one count per distinct streak id. -/
def groupbySizes (ids : List ℕ) : List ℕ :=
  ids.dedup.map (fun k => ids.count k)

/-- `win_streaks = trades[trades['Win']].groupby('Streak').size()`
(respectively the complement for losses): sizes of the streak groups
restricted to rows whose `Win` flag equals `w`. -/
def streakSizes (pnls : List ℚ) (w : Bool) : List ℕ :=
  let wins := pnls.map (fun p => decide (0 < p))
  let pairs := wins.zip (streakIds wins)
  groupbySizes ((pairs.filter (fun pr => pr.1 = w)).map Prod.snd)

/-- `streaks.max() if len(streaks) > 0 else 0`. -/
def maxStreak (sizes : List ℕ) : ℕ :=
  if sizes.length > 0 then sizes.foldl Nat.max 0 else 0

/-- The metrics dictionary built by `calculate_metrics`.  Trades are
represented by their `PnL` column (the only column the computed metrics
read); the three duration strings, which would need the optional
`EntryTime`/`ExitTime` columns, and the display-only `std_return_pct`
(irrational in general) are omitted. `profit_factor = none` encodes the
source's `float('inf')`; `max_drawdown_pct = none` encodes NaN. -/
structure Metrics where
  total_trades : ℕ
  winning_trades : ℕ
  losing_trades : ℕ
  win_rate_pct : ℚ
  total_pnl : ℚ
  total_return_pct : ℚ
  avg_win : ℚ
  avg_loss : ℚ
  largest_win : ℚ
  largest_loss : ℚ
  profit_factor : Option ℚ
  avg_return_pct : ℚ
  sharpe_ratio : SharpeVal
  max_drawdown_pct : Option ℚ
  avg_drawdown_pct : ℚ
  max_consecutive_wins : ℕ
  max_consecutive_losses : ℕ
deriving DecidableEq, Repr

/-- `PerformanceAnalyzer.calculate_metrics`, translated statement by
statement.  `trades_df = none` is Python `None`; the `return {}` of the
`None`/empty guard is the `none` result.  Commentary on two exact
encodings: `profit_factor` is `some` of the quotient exactly when the
source's `losing_trades > 0 and avg_loss != 0` guard passes (otherwise
`float('inf')`), and `sharpe_ratio`'s guard `std_return > 0` is
`2 ≤ n ∧ 0 < sampleVar` because pandas' sample std of a single value is
NaN (and NaN > 0 is false). -/
def calculate_metrics (trades_df : Option (List ℚ)) (equity_curve : Option (List ℚ))
    (initial_capital : ℚ) : Option Metrics :=
  match trades_df with
  | none => none
  | some pnls =>
    if pnls.length = 0 then none
    else
      let total_trades := pnls.length
      let winning_trades := (pnls.filter (fun p => decide (0 < p))).length
      let losing_trades := (pnls.filter (fun p => decide (p < 0))).length
      let win_rate := if total_trades > 0 then
        (winning_trades : ℚ) / (total_trades : ℚ) * 100 else 0
      let total_pnl := pnls.sum
      let avg_win := if winning_trades > 0 then
        qmean (pnls.filter (fun p => decide (0 < p))) else 0
      let avg_loss := if losing_trades > 0 then
        qmean (pnls.filter (fun p => decide (p < 0))) else 0
      let largest_win := if total_trades > 0 then qListMax pnls else 0
      let largest_loss := if total_trades > 0 then qListMin pnls else 0
      let profit_factor := if losing_trades > 0 ∧ avg_loss ≠ 0 then
        some |avg_win * winning_trades / (avg_loss * losing_trades)| else none
      let returns := pnls.map (fun p => p / initial_capital)
      let avg_return := qmean returns
      let sharpe := if 2 ≤ returns.length ∧ 0 < sampleVar returns then
        SharpeVal.annualized avg_return (sampleVar returns) else SharpeVal.zero
      let max_dd : Option ℚ := match equity_curve with
        | some eqc => max_drawdown eqc
        | none => some 0
      let avg_dd : ℚ := match equity_curve with
        | some eqc => avg_drawdown eqc
        | none => 0
      some
        { total_trades := total_trades
          winning_trades := winning_trades
          losing_trades := losing_trades
          win_rate_pct := win_rate
          total_pnl := total_pnl
          total_return_pct := total_pnl / initial_capital * 100
          avg_win := avg_win
          avg_loss := avg_loss
          largest_win := largest_win
          largest_loss := largest_loss
          profit_factor := profit_factor
          avg_return_pct := avg_return * 100
          sharpe_ratio := sharpe
          max_drawdown_pct := max_dd
          avg_drawdown_pct := avg_dd
          max_consecutive_wins := maxStreak (streakSizes pnls true)
          max_consecutive_losses := maxStreak (streakSizes pnls false) }

/-- The analyzer object: its `trades_df` and `equity_curve` attributes
(`None` encoded as `none`). -/
structure PerformanceAnalyzer where
  trades_df : Option (List ℚ)
  equity_curve : Option (List ℚ)
deriving DecidableEq, Repr

/-- `calculate_metrics` as a method acting on the analyzer state: the
returned pair is (result, the object after the call).  The source binds
`trades = self.trades_df.copy()` and every later column assignment
(`Duration`, `Win`, `Streak`) targets that local copy; no statement of
the method assigns to `self.trades_df` or `self.equity_curve`, so the
object's fields pass through unchanged. -/
def calculate_metricsS (self : PerformanceAnalyzer) (initial_capital : ℚ) :
    Option Metrics × PerformanceAnalyzer :=
  match self.trades_df with
  | none => (none, self)
  | some tdf =>
    if tdf.length = 0 then (none, self)
    else
      let trades := tdf
      (calculate_metrics (some trades) self.equity_curve initial_capital, self)

/-- One row of the processed input dataframe handed to
`prepare_data_for_backtest`: the OHLCV and indicator columns (each
possibly NaN, encoded `none`) plus the datetime index. -/
structure InRow where
  open_ : Option ℚ
  high : Option ℚ
  low : Option ℚ
  close : Option ℚ
  volume : Option ℚ
  rsi_14 : Option ℚ
  macd : Option ℚ
  macd_signal : Option ℚ
  bb_upper : Option ℚ
  bb_lower : Option ℚ
  datetime : ℕ
deriving DecidableEq, Repr

/-- The prediction-alignment step of `prepare_data_for_backtest`: when
fewer predictions than bars, pad with NaN at the beginning
(`padded_predictions[-len(predictions):] = predictions`); otherwise
truncate to the bar count (`predictions[:len(bt_data)]`). -/
def pad_predictions (n : ℕ) (preds : List (Option ℚ)) : List (Option ℚ) :=
  if preds.length < n then List.replicate (n - preds.length) none ++ preds
  else preds.take n

/-- A joined row survives `bt_data.dropna()` exactly when every column,
the aligned prediction included, is defined; the surviving row is the
bar the backtest consumes. -/
def rowToBar (r : InRow) (pred : Option ℚ) : Option BarRow := do
  let o ← r.open_
  let h ← r.high
  let l ← r.low
  let c ← r.close
  let v ← r.volume
  let rsi ← r.rsi_14
  let m ← r.macd
  let ms ← r.macd_signal
  let bu ← r.bb_upper
  let bl ← r.bb_lower
  let pp ← pred
  pure { Open := o, High := h, Low := l, Close := c, Volume := v, RSI := rsi,
         MACD := m, MACD_Signal := ms, BB_Upper := bu, BB_Lower := bl,
         Predicted_Price := pp }

/-- `BacktestRunner.prepare_data_for_backtest`: build the bar table from
the dataframe columns, align the predictions (NaN-padding or truncating),
and drop every row containing a NaN.  The function always returns the
(possibly empty) filtered table; no code path raises. -/
def prepare_data_for_backtest (df : List InRow) (predictions : List (Option ℚ)) :
    List BarRow :=
  (df.zip (pad_predictions df.length predictions)).filterMap
    (fun rp => rowToBar rp.1 rp.2)

/-- Modelled from the spec: the error the specification says the engine
raises when the bar series is empty after filtering undefined fields
(`InsufficientDataError`); no such class exists anywhere in the sources. -/
inductive BacktestError where
  | InsufficientData
deriving DecidableEq, Repr

/-- Modelled from the spec: data preparation as the specification
describes it — exclude rows with undefined indicator/forecast values and
fail fast with `InsufficientDataError` when nothing survives the filter.
Stated for comparison against the source's `prepare_data_for_backtest`. -/
def prepare_data_specced (df : List InRow) (predictions : List (Option ℚ)) :
    Except BacktestError (List BarRow) :=
  let filtered := prepare_data_for_backtest df predictions
  if filtered = [] then .error .InsufficientData else .ok filtered

/-- `prediction_threshold` grid of `optimize_strategy`. -/
def threshold_grid : List ℚ := [1/1000, 2/1000, 3/1000, 4/1000]

/-- `stop_loss_pct` grid of `optimize_strategy`. -/
def stop_loss_grid : List ℚ := [3/1000, 5/1000, 7/1000, 1/100]

/-- `take_profit_pct` grid of `optimize_strategy`. -/
def take_profit_grid : List ℚ := [6/1000, 1/100, 15/1000, 2/100]

/-- `position_size` grid of `optimize_strategy`. -/
def position_size_grid : List ℚ := [1/2, 7/10, 9/10, 95/100]

/-- The strategy configuration a grid combination denotes: the
`LSTMScalpingStrategy` defaults with the four optimized parameters
overridden. -/
def gridConfig (th sl tp sz : ℚ) : StrategyConfig :=
  { LSTMScalpingStrategy with
    prediction_threshold := th
    stop_loss_pct := sl
    take_profit_pct := tp
    position_size := sz }

/-- Modelled from the spec: the full Cartesian product of the four named
parameter lists, in grid-enumeration order (the product enumeration of
the external library's `Backtest.optimize`). -/
def optimization_grid : List StrategyConfig :=
  threshold_grid.flatMap (fun th =>
    stop_loss_grid.flatMap (fun sl =>
      take_profit_grid.flatMap (fun tp =>
        position_size_grid.map (fun sz => gridConfig th sl tp sz))))

/-- The `constraint` lambda of `optimize_strategy`:
`p.take_profit_pct > p.stop_loss_pct`. -/
def optimize_constraint (p : StrategyConfig) : Bool :=
  decide (p.take_profit_pct > p.stop_loss_pct)

/-- Modelled from the spec: the sequential best-so-far sweep of the
candidate list, keeping the earlier candidate on ties (first-encountered
tie-break). -/
def best_so_far {α : Type} (score : α → ℚ) (best : α) : List α → α
  | [] => best
  | q :: qs => best_so_far score (if score best < score q then q else best) qs

/-- Modelled from the spec: select the best-scoring candidate of a list,
`none` when the list is empty. -/
def select_best {α : Type} (score : α → ℚ) : List α → Option α
  | [] => none
  | p :: ps => some (best_so_far score p ps)

/-- Modelled from the spec: `BacktestRunner.optimize_strategy` (driving
the external library's grid optimizer): enumerate the Cartesian product,
keep only combinations satisfying the constraint predicate, score each
survivor with the chosen objective (`maximize='Sharpe Ratio'` at the call
site; the objective is abstracted as `score` here), and return the
maximizer, ties broken by first-encountered order. -/
def optimize_strategy (score : StrategyConfig → ℚ) : Option StrategyConfig :=
  select_best score (optimization_grid.filter optimize_constraint)

/-- Modelled from the spec: the per-bar transition of the simulation
loop as a relation, one constructor per branch of the engine's decision
structure, each guarded by the branch's condition.  `StepR t s s' es`
holds when processing bar `t` from state `s` can lead to state `s'`
emitting events `es`.  Stating the loop relationally lets determinism —
the absence of any hidden source of nondeterminism — be proved rather
than assumed. -/
inductive StepR (cfg : StrategyConfig) (ecfg : EngineConfig) (bars : List BarRow) :
    ℕ → EngState → EngState → List EngEvent → Prop where
  | outOfRange {t s} :
      bars[t]? = none →
      StepR cfg ecfg bars t s s []
  | protectiveExit {t s b p price reason} :
      bars[t]? = some b →
      s.pos = some p →
      checkProtectiveOrders p b = some (price, reason) →
      StepR cfg ecfg bars t s
        (recordEquity (closePosition ecfg s p price t reason) t b) [.Exited t reason]
  | discretionaryExit {t s b p b'} :
      bars[t]? = some b →
      s.pos = some p →
      checkProtectiveOrders p b = none →
      nextAction cfg (t + 1) b (some p) = .Exit →
      bars[t + 1]? = some b' →
      StepR cfg ecfg bars t s
        (recordEquity (closePosition ecfg s p b'.Open t .SignalReversal) t b)
        [.Exited t .SignalReversal]
  | discretionaryExitLastBar {t s b p} :
      bars[t]? = some b →
      s.pos = some p →
      checkProtectiveOrders p b = none →
      nextAction cfg (t + 1) b (some p) = .Exit →
      bars[t + 1]? = none →
      StepR cfg ecfg bars t s (recordEquity s t b) []
  | positionHold {t s b p} :
      bars[t]? = some b →
      s.pos = some p →
      checkProtectiveOrders p b = none →
      nextAction cfg (t + 1) b (some p) ≠ .Exit →
      StepR cfg ecfg bars t s (recordEquity s t b) []
  | enterLong {t s b b'} :
      bars[t]? = some b →
      s.pos = none →
      nextAction cfg (t + 1) b none = .EnterLong →
      bars[t + 1]? = some b' →
      StepR cfg ecfg bars t s
        (recordEquity { s with pos := some (openedPosition cfg true b (t + 1) b'.Open s.cash) } t b)
        [.Entered t (openedPosition cfg true b (t + 1) b'.Open s.cash)]
  | enterLongLastBar {t s b} :
      bars[t]? = some b →
      s.pos = none →
      nextAction cfg (t + 1) b none = .EnterLong →
      bars[t + 1]? = none →
      StepR cfg ecfg bars t s (recordEquity s t b) []
  | enterShort {t s b b'} :
      bars[t]? = some b →
      s.pos = none →
      nextAction cfg (t + 1) b none = .EnterShort →
      bars[t + 1]? = some b' →
      StepR cfg ecfg bars t s
        (recordEquity { s with pos := some (openedPosition cfg false b (t + 1) b'.Open s.cash) } t b)
        [.Entered t (openedPosition cfg false b (t + 1) b'.Open s.cash)]
  | enterShortLastBar {t s b} :
      bars[t]? = some b →
      s.pos = none →
      nextAction cfg (t + 1) b none = .EnterShort →
      bars[t + 1]? = none →
      StepR cfg ecfg bars t s (recordEquity s t b) []
  | flatHold {t s b} :
      bars[t]? = some b →
      s.pos = none →
      nextAction cfg (t + 1) b none ≠ .EnterLong →
      nextAction cfg (t + 1) b none ≠ .EnterShort →
      StepR cfg ecfg bars t s (recordEquity s t b) []

/-- Modelled from the spec: the loop relation — `RunSteps t s₀ s` holds
when `t` bars processed from `s₀` can reach `s`. -/
inductive RunSteps (cfg : StrategyConfig) (ecfg : EngineConfig) (bars : List BarRow) :
    ℕ → EngState → EngState → Prop where
  | zero {s} : RunSteps cfg ecfg bars 0 s s
  | succ {t s₀ s s' es} :
      RunSteps cfg ecfg bars t s₀ s →
      StepR cfg ecfg bars t s s' es →
      RunSteps cfg ecfg bars (t + 1) s₀ s'

/-- Modelled from the spec: a complete run — every bar processed from the
initial state, then the end-of-data force-close. -/
def FullRun (cfg : StrategyConfig) (ecfg : EngineConfig) (bars : List BarRow)
    (final : EngState) : Prop :=
  ∃ s, RunSteps cfg ecfg bars bars.length (initState ecfg) s ∧
    final = finalizeRun ecfg bars s

/-- The metrics the pipeline derives from a finished run: the trade log's
PnL column and the recorded equity curve fed to
`PerformanceAnalyzer.calculate_metrics` with the starting capital. -/
def metricsOfRun (ecfg : EngineConfig) (s : EngState) : Option Metrics :=
  calculate_metrics (some (s.trades.map TradeRec.PnL)) (some s.equity_curve) ecfg.cash

/-- The transition relation has exactly one outcome per state and bar:
any two derivations agree on the next state and the emitted events. -/
theorem stepR_det {cfg ecfg bars t s s₁ e₁ s₂ e₂}
    (h₁ : StepR cfg ecfg bars t s s₁ e₁) (h₂ : StepR cfg ecfg bars t s s₂ e₂) :
    s₁ = s₂ ∧ e₁ = e₂ := by
  cases h₁ <;> cases h₂ <;> simp_all

/-- The engine's step function realizes the step relation. -/
theorem stepR_sound (cfg : StrategyConfig) (ecfg : EngineConfig) (bars : List BarRow)
    (t : ℕ) (s : EngState) :
    StepR cfg ecfg bars t s (engineStep cfg ecfg bars t s).1 (engineStep cfg ecfg bars t s).2 := by
  cases hb : bars[t]? with
  | none =>
    have h : engineStep cfg ecfg bars t s = (s, []) := by
      simp [engineStep, hb]
    rw [h]
    exact StepR.outOfRange hb
  | some b =>
    cases hp : s.pos with
    | some p =>
      cases hc : checkProtectiveOrders p b with
      | some pr =>
        obtain ⟨price, reason⟩ := pr
        have h : engineStep cfg ecfg bars t s =
            (recordEquity (closePosition ecfg s p price t reason) t b,
              [.Exited t reason]) := by
          simp [engineStep, hb, hp, hc]
        rw [h]
        exact StepR.protectiveExit hb hp hc
      | none =>
        cases ha : nextAction cfg (t + 1) b (some p) with
        | Exit =>
          cases hb' : bars[t + 1]? with
          | some b' =>
            have h : engineStep cfg ecfg bars t s =
                (recordEquity (closePosition ecfg s p b'.Open t .SignalReversal) t b,
                  [.Exited t .SignalReversal]) := by
              simp [engineStep, hb, hp, hc, ha, hb']
            rw [h]
            exact StepR.discretionaryExit hb hp hc ha hb'
          | none =>
            have h : engineStep cfg ecfg bars t s = (recordEquity s t b, []) := by
              simp [engineStep, hb, hp, hc, ha, hb']
            rw [h]
            exact StepR.discretionaryExitLastBar hb hp hc ha hb'
        | EnterLong =>
          have h : engineStep cfg ecfg bars t s = (recordEquity s t b, []) := by
            simp [engineStep, hb, hp, hc, ha]
          rw [h]
          exact StepR.positionHold hb hp hc (by simp [ha])
        | EnterShort =>
          have h : engineStep cfg ecfg bars t s = (recordEquity s t b, []) := by
            simp [engineStep, hb, hp, hc, ha]
          rw [h]
          exact StepR.positionHold hb hp hc (by simp [ha])
        | Hold =>
          have h : engineStep cfg ecfg bars t s = (recordEquity s t b, []) := by
            simp [engineStep, hb, hp, hc, ha]
          rw [h]
          exact StepR.positionHold hb hp hc (by simp [ha])
    | none =>
      cases ha : nextAction cfg (t + 1) b none with
      | EnterLong =>
        cases hb' : bars[t + 1]? with
        | some b' =>
          have h : engineStep cfg ecfg bars t s =
              (recordEquity
                { s with pos := some (openedPosition cfg true b (t + 1) b'.Open s.cash) } t b,
                [.Entered t (openedPosition cfg true b (t + 1) b'.Open s.cash)]) := by
            simp [engineStep, hb, hp, ha, hb']
          rw [h]
          exact StepR.enterLong hb hp ha hb'
        | none =>
          have h : engineStep cfg ecfg bars t s = (recordEquity s t b, []) := by
            simp [engineStep, hb, hp, ha, hb']
          rw [h]
          exact StepR.enterLongLastBar hb hp ha hb'
      | EnterShort =>
        cases hb' : bars[t + 1]? with
        | some b' =>
          have h : engineStep cfg ecfg bars t s =
              (recordEquity
                { s with pos := some (openedPosition cfg false b (t + 1) b'.Open s.cash) } t b,
                [.Entered t (openedPosition cfg false b (t + 1) b'.Open s.cash)]) := by
            simp [engineStep, hb, hp, ha, hb']
          rw [h]
          exact StepR.enterShort hb hp ha hb'
        | none =>
          have h : engineStep cfg ecfg bars t s = (recordEquity s t b, []) := by
            simp [engineStep, hb, hp, ha, hb']
          rw [h]
          exact StepR.enterShortLastBar hb hp ha hb'
      | Exit =>
        have h : engineStep cfg ecfg bars t s = (recordEquity s t b, []) := by
          simp [engineStep, hb, hp, ha]
        rw [h]
        exact StepR.flatHold hb hp (by simp [ha]) (by simp [ha])
      | Hold =>
        have h : engineStep cfg ecfg bars t s = (recordEquity s t b, []) := by
          simp [engineStep, hb, hp, ha]
        rw [h]
        exact StepR.flatHold hb hp (by simp [ha]) (by simp [ha])

/-- The loop relation is deterministic. -/
theorem runSteps_det {cfg ecfg bars t s₀ s₁ s₂}
    (h₁ : RunSteps cfg ecfg bars t s₀ s₁) (h₂ : RunSteps cfg ecfg bars t s₀ s₂) :
    s₁ = s₂ := by
  induction h₁ generalizing s₂ with
  | zero => cases h₂; rfl
  | succ _ hstep ih =>
    cases h₂ with
    | succ hrun₂ hstep₂ =>
      cases ih hrun₂
      exact (stepR_det hstep hstep₂).1

/-- The folded step function realizes the loop relation. -/
theorem runSteps_sound (cfg : StrategyConfig) (ecfg : EngineConfig) (bars : List BarRow)
    (s₀ : EngState) (n : ℕ) :
    RunSteps cfg ecfg bars n s₀
      ((List.range n).foldl (fun s t => (engineStep cfg ecfg bars t s).1) s₀) := by
  induction n with
  | zero => exact RunSteps.zero
  | succ n ih =>
    rw [List.range_succ, List.foldl_append]
    exact RunSteps.succ ih (stepR_sound cfg ecfg bars n _)

/-- `runEngine` is a complete run in the sense of the loop relation. -/
theorem fullRun_runEngine (cfg : StrategyConfig) (ecfg : EngineConfig) (bars : List BarRow) :
    FullRun cfg ecfg bars (runEngine cfg ecfg bars) :=
  ⟨_, runSteps_sound cfg ecfg bars (initState ecfg) bars.length, rfl⟩

/-- Propositional reading of `_should_go_long`. -/
theorem should_go_long_iff (cfg : StrategyConfig) (pr rsi m ms : ℚ) :
    should_go_long cfg pr rsi m ms = true ↔
      (pr > cfg.prediction_threshold ∧ rsi < cfg.rsi_overbought ∧ m > ms) := by
  simp [should_go_long, and_assoc]

/-- Propositional reading of `_should_go_short`. -/
theorem should_go_short_iff (cfg : StrategyConfig) (pr rsi m ms : ℚ) :
    should_go_short cfg pr rsi m ms = true ↔
      (pr < -cfg.prediction_threshold ∧ rsi > cfg.rsi_oversold ∧ m < ms) := by
  simp [should_go_short, and_assoc]

/-- The long and short entry conditions are mutually exclusive: the first
requires the MACD above its signal line, the second below it. -/
theorem long_short_exclusive (cfg : StrategyConfig) (pr rsi m ms : ℚ)
    (h : should_go_long cfg pr rsi m ms = true) :
    should_go_short cfg pr rsi m ms = false := by
  rcases (should_go_long_iff cfg pr rsi m ms).mp h with ⟨-, -, hms⟩
  simp only [should_go_short, Bool.and_eq_false_iff]
  right
  simp [not_lt.mpr (le_of_lt hms)]

/-- A bar on which every long-entry condition of the default strategy
holds: forecast-implied change `+2%`, RSI `50`, MACD above its signal
line. -/
def cbar : BarRow :=
  { Open := 100, High := 101, Low := 99, Close := 100, Volume := 1,
    RSI := 50, MACD := 1, MACD_Signal := 0, BB_Upper := 110, BB_Lower := 90,
    Predicted_Price := 102 }

/-- C2, counterexample: on the very first bar (`len(self.data) = 1`) the
strategy's warm-up guard returns without trading, so the claimed
equivalence "EnterLong iff the three signal conditions hold and no
position is open" fails there: all conditions hold, no position is open,
yet the action is `Hold`. -/
theorem c2_counterexample :
    ¬((nextAction LSTMScalpingStrategy 1 cbar none = .EnterLong) ↔
      (price_change_predicted cbar > LSTMScalpingStrategy.prediction_threshold ∧
        cbar.RSI < LSTMScalpingStrategy.rsi_overbought ∧
        cbar.MACD > cbar.MACD_Signal ∧ (none : Option Position) = none)) := by
  intro h
  have hcond : price_change_predicted cbar > LSTMScalpingStrategy.prediction_threshold ∧
      cbar.RSI < LSTMScalpingStrategy.rsi_overbought ∧
      cbar.MACD > cbar.MACD_Signal ∧ (none : Option Position) = none := by
    refine ⟨?_, ?_, ?_, rfl⟩ <;>
      norm_num [price_change_predicted, cbar, LSTMScalpingStrategy]
  have hhold := h.mpr hcond
  simp [nextAction] at hhold

/-- C2 (amended): once at least two bars of data are available (the
strategy's warm-up guard `len(self.data) < 2` has passed), the action is
`EnterLong` iff the forecast-implied change exceeds the threshold, RSI is
below the overbought bound, MACD is above its signal line and no position
is open; and `EnterShort` iff the mirrored conditions hold and no
position is open. -/
theorem c2_entry_signal_iff (cfg : StrategyConfig) (n : ℕ) (b : BarRow)
    (pos : Option Position) (hn : 2 ≤ n) :
    ((nextAction cfg n b pos = .EnterLong) ↔
      (price_change_predicted b > cfg.prediction_threshold ∧
        b.RSI < cfg.rsi_overbought ∧ b.MACD > b.MACD_Signal ∧ pos = none)) ∧
    ((nextAction cfg n b pos = .EnterShort) ↔
      (price_change_predicted b < -cfg.prediction_threshold ∧
        b.RSI > cfg.rsi_oversold ∧ b.MACD < b.MACD_Signal ∧ pos = none)) := by
  have hn' : ¬ n < 2 := by omega
  cases pos with
  | some p =>
    constructor <;>
    · constructor
      · intro hEq
        exfalso
        simp only [nextAction, if_neg hn'] at hEq
        split at hEq <;> simp_all
      · rintro ⟨-, -, -, h4⟩
        exact Option.noConfusion h4
  | none =>
    simp only [nextAction, if_neg hn']
    by_cases hl : should_go_long cfg (price_change_predicted b) b.RSI b.MACD b.MACD_Signal = true
    · have hs := long_short_exclusive cfg (price_change_predicted b) b.RSI b.MACD b.MACD_Signal hl
      rcases (should_go_long_iff cfg _ _ _ _).mp hl with ⟨h1, h2, h3⟩
      constructor
      · simp [hl, h1, h2, h3]
      · rw [if_pos hl]
        constructor
        · intro hEq
          exact absurd hEq (by simp)
        · rintro ⟨-, -, hms, -⟩
          exact absurd h3 (not_lt.mpr (le_of_lt hms))
    · by_cases hsh : should_go_short cfg (price_change_predicted b) b.RSI b.MACD b.MACD_Signal = true
      · rcases (should_go_short_iff cfg _ _ _ _).mp hsh with ⟨h1, h2, h3⟩
        rw [if_neg hl, if_pos hsh]
        constructor
        · constructor
          · intro hEq
            exact absurd hEq (by simp)
          · rintro ⟨hq1, hq2, hq3, -⟩
            exact absurd ((should_go_long_iff cfg _ _ _ _).mpr ⟨hq1, hq2, hq3⟩) hl
        · simp [h1, h2, h3]
      · rw [if_neg hl, if_neg hsh]
        constructor
        · constructor
          · intro hEq
            exact absurd hEq (by simp)
          · rintro ⟨hq1, hq2, hq3, -⟩
            exact absurd ((should_go_long_iff cfg _ _ _ _).mpr ⟨hq1, hq2, hq3⟩) hl
        · constructor
          · intro hEq
            exact absurd hEq (by simp)
          · rintro ⟨hq1, hq2, hq3, -⟩
            exact absurd ((should_go_short_iff cfg _ _ _ _).mpr ⟨hq1, hq2, hq3⟩) hsh

/-- C2, witness: the amended equivalence applied on the second bar to the
concrete signal bar `cbar` with no open position. -/
theorem c2_witness :
    (nextAction LSTMScalpingStrategy 2 cbar none = .EnterLong) ↔
      (price_change_predicted cbar > LSTMScalpingStrategy.prediction_threshold ∧
        cbar.RSI < LSTMScalpingStrategy.rsi_overbought ∧
        cbar.MACD > cbar.MACD_Signal ∧ (none : Option Position) = none) :=
  (c2_entry_signal_iff LSTMScalpingStrategy 2 cbar none (by norm_num)).1

/-- A quiet bar: forecast equal to the close, no signal. -/
def bar0 : BarRow :=
  { Open := 100, High := 100, Low := 100, Close := 100, Volume := 1,
    RSI := 50, MACD := 0, MACD_Signal := 0, BB_Upper := 110, BB_Lower := 90,
    Predicted_Price := 100 }

/-- The bar following the signal bar `cbar`: it opens at `102`, above the
signal bar's close of `100`. -/
def bar2 : BarRow :=
  { Open := 102, High := 103, Low := 101, Close := 102, Volume := 1,
    RSI := 50, MACD := 1, MACD_Signal := 0, BB_Upper := 110, BB_Lower := 90,
    Predicted_Price := 102 }

/-- A three-bar series: warm-up bar, signal bar, fill bar. -/
def bars3 : List BarRow := [bar0, cbar, bar2]

/-- Engine configuration with the source's defaults: cash `10000`,
commission `0.0004`. -/
def ecfg0 : EngineConfig := { cash := 10000, commission := 4/10000 }

/-- The position the engine opens on the signal bar of `bars3`: filled at
the next bar's open `102`, protective prices computed from the signal
bar's close `100`. -/
def cpos : Position := openedPosition LSTMScalpingStrategy true cbar 2 102 10000

/-- On `bars3`, processing the signal bar (index 1) from the initial
state places exactly one long entry, the position `cpos`. -/
theorem c1_step_events :
    (engineStep LSTMScalpingStrategy ecfg0 bars3 1 (initState ecfg0)).2 =
      [EngEvent.Entered 1 cpos] := by
  have hl : should_go_long LSTMScalpingStrategy (price_change_predicted cbar)
      cbar.RSI cbar.MACD cbar.MACD_Signal = true := by
    rw [should_go_long_iff]
    refine ⟨?_, ?_, ?_⟩ <;>
      norm_num [price_change_predicted, cbar, LSTMScalpingStrategy]
  have ha : nextAction LSTMScalpingStrategy 2 cbar none = .EnterLong := by
    simp [nextAction, hl]
  have e1 : bars3[1]? = some cbar := rfl
  have e2 : bars3[2]? = some bar2 := rfl
  have hpos : (initState ecfg0).pos = none := rfl
  simp [engineStep, e1, e2, hpos, ha, cpos, initState, bar2, ecfg0]

/-- C1, counterexample: on `bars3` the engine enters long with fill price
`102` (the following bar's open) but attaches stop-loss and take-profit
computed from the signal bar's close `100`; neither equals
`entry × (1 ∓ pct)` for the actual entry (fill) price, refuting the claim
that the protective prices are derived from the configured fill price. -/
theorem c1_counterexample :
    ∃ p, (engineStep LSTMScalpingStrategy ecfg0 bars3 1 (initState ecfg0)).2 =
        [EngEvent.Entered 1 p] ∧
      p.is_long = true ∧ p.entryPrice = 102 ∧
      p.sl ≠ p.entryPrice * (1 - LSTMScalpingStrategy.stop_loss_pct) ∧
      p.tp ≠ p.entryPrice * (1 + LSTMScalpingStrategy.take_profit_pct) := by
  refine ⟨cpos, c1_step_events, rfl, rfl, ?_, ?_⟩ <;>
    norm_num [cpos, openedPosition, cbar, LSTMScalpingStrategy]

/-- C1 (amended): for every entry the engine executes, the fill price is
the following bar's open (`NextBarOpen` fill timing) while the attached
stop-loss and take-profit equal `signal_close × (1 ∓ stop_pct)` and
`signal_close × (1 ± tp_pct)` — computed from the *signal* bar's close
(`entry_price = self.data.Close[-1]` in `_open_long`/`_open_short`), not
from the fill price; signs mirrored for shorts. -/
theorem c1_entry_protective_prices (cfg : StrategyConfig) (ecfg : EngineConfig)
    (bars : List BarRow) (t : ℕ) (s : EngState) (p : Position)
    (hmem : EngEvent.Entered t p ∈ (engineStep cfg ecfg bars t s).2) :
    ∃ b b', bars[t]? = some b ∧ bars[t + 1]? = some b' ∧
      p.entryBar = t + 1 ∧ p.entryPrice = b'.Open ∧
      (p.is_long = true →
        p.sl = b.Close * (1 - cfg.stop_loss_pct) ∧
        p.tp = b.Close * (1 + cfg.take_profit_pct)) ∧
      (p.is_long = false →
        p.sl = b.Close * (1 + cfg.stop_loss_pct) ∧
        p.tp = b.Close * (1 - cfg.take_profit_pct)) := by
  obtain ⟨s', es, hstep, hes⟩ :
      ∃ s' es, StepR cfg ecfg bars t s s' es ∧ (engineStep cfg ecfg bars t s).2 = es :=
    ⟨_, _, stepR_sound cfg ecfg bars t s, rfl⟩
  rw [hes] at hmem
  cases hstep with
  | outOfRange h1 => simp at hmem
  | protectiveExit h1 h2 h3 => simp at hmem
  | discretionaryExit h1 h2 h3 h4 h5 => simp at hmem
  | discretionaryExitLastBar h1 h2 h3 h4 h5 => simp at hmem
  | positionHold h1 h2 h3 h4 => simp at hmem
  | enterLongLastBar h1 h2 h3 h4 => simp at hmem
  | enterShortLastBar h1 h2 h3 h4 => simp at hmem
  | flatHold h1 h2 h3 h4 => simp at hmem
  | @enterLong b b' h1 h2 h3 h4 =>
    rw [List.mem_singleton] at hmem
    injection hmem with ht hp
    subst hp
    exact ⟨b, b', h1, h4, rfl, rfl, fun _ => ⟨rfl, rfl⟩, fun hfalse => by
      simp [openedPosition] at hfalse⟩
  | @enterShort b b' h1 h2 h3 h4 =>
    rw [List.mem_singleton] at hmem
    injection hmem with ht hp
    subst hp
    exact ⟨b, b', h1, h4, rfl, rfl, fun htrue => by
      simp [openedPosition] at htrue, fun _ => ⟨rfl, rfl⟩⟩

/-- C1, witness: the amended statement applied to the concrete entry the
engine executes on `bars3`. -/
theorem c1_witness :
    ∃ b b', bars3[1]? = some b ∧ bars3[1 + 1]? = some b' ∧
      cpos.entryBar = 1 + 1 ∧ cpos.entryPrice = b'.Open ∧
      (cpos.is_long = true →
        cpos.sl = b.Close * (1 - LSTMScalpingStrategy.stop_loss_pct) ∧
        cpos.tp = b.Close * (1 + LSTMScalpingStrategy.take_profit_pct)) ∧
      (cpos.is_long = false →
        cpos.sl = b.Close * (1 + LSTMScalpingStrategy.stop_loss_pct) ∧
        cpos.tp = b.Close * (1 - LSTMScalpingStrategy.take_profit_pct)) :=
  c1_entry_protective_prices LSTMScalpingStrategy ecfg0 bars3 1 (initState ecfg0) cpos
    (by rw [c1_step_events]; exact List.mem_singleton_self _)

/-- C6: on any bar whose state has an open position, the engine emits no
entry event (it only manages the position); moreover no single bar step
emits both an exit and an entry, so an exit and a new entry never occur
on the same bar. -/
theorem c6_no_entry_when_position_open (cfg : StrategyConfig) (ecfg : EngineConfig)
    (bars : List BarRow) (t : ℕ) (s : EngState) :
    (∀ p, s.pos = some p → ∀ q, EngEvent.Entered t q ∉ (engineStep cfg ecfg bars t s).2) ∧
    (∀ r q, EngEvent.Exited t r ∈ (engineStep cfg ecfg bars t s).2 →
      EngEvent.Entered t q ∉ (engineStep cfg ecfg bars t s).2) := by
  obtain ⟨s', es, hstep, hes⟩ :
      ∃ s' es, StepR cfg ecfg bars t s s' es ∧ (engineStep cfg ecfg bars t s).2 = es :=
    ⟨_, _, stepR_sound cfg ecfg bars t s, rfl⟩
  rw [hes]
  cases hstep <;> refine ⟨?_, ?_⟩ <;> intros <;> simp_all

/-- The state used for the C6 witness: a position is open at the start of
the bar. -/
def spos : EngState :=
  { pos := some cpos, cash := 10000, trades := [], equity_curve := [] }

/-- C6, witness: with the position `cpos` open at the start of bar 0 of
`bars3`, no entry event is emitted on that bar. -/
theorem c6_witness :
    EngEvent.Entered 0 cpos ∉ (engineStep LSTMScalpingStrategy ecfg0 bars3 0 spos).2 :=
  (c6_no_entry_when_position_open LSTMScalpingStrategy ecfg0 bars3 0 spos).1 cpos rfl cpos

/-- C8: the pipeline is deterministic — any two complete runs of the
engine over the same bar series, strategy configuration and engine
configuration reach the same final state, hence identical trade logs and
identical metrics; the step rules admit no hidden nondeterminism. -/
theorem c8_deterministic (cfg : StrategyConfig) (ecfg : EngineConfig)
    (bars : List BarRow) (f₁ f₂ : EngState)
    (h₁ : FullRun cfg ecfg bars f₁) (h₂ : FullRun cfg ecfg bars f₂) :
    f₁.trades = f₂.trades ∧ metricsOfRun ecfg f₁ = metricsOfRun ecfg f₂ := by
  obtain ⟨s₁, hr₁, hf₁⟩ := h₁
  obtain ⟨s₂, hr₂, hf₂⟩ := h₂
  cases runSteps_det hr₁ hr₂
  subst hf₁
  subst hf₂
  exact ⟨rfl, rfl⟩

/-- C8, witness: two runs of the engine over the concrete series `bars3`
with the default strategy and engine configuration produce identical
trade logs and metrics. -/
theorem c8_witness :
    (runEngine LSTMScalpingStrategy ecfg0 bars3).trades =
      (runEngine LSTMScalpingStrategy ecfg0 bars3).trades ∧
    metricsOfRun ecfg0 (runEngine LSTMScalpingStrategy ecfg0 bars3) =
      metricsOfRun ecfg0 (runEngine LSTMScalpingStrategy ecfg0 bars3) :=
  c8_deterministic LSTMScalpingStrategy ecfg0 bars3 _ _
    (fullRun_runEngine LSTMScalpingStrategy ecfg0 bars3)
    (fullRun_runEngine LSTMScalpingStrategy ecfg0 bars3)

/-- C3, counterexample: on an empty trade log `calculate_metrics` takes
the `return {}` guard — the result carries no metrics at all, so win rate
`0` is *omitted*, not returned as a defined metric value. -/
theorem c3_counterexample :
    calculate_metrics (some []) (some []) 10000 = none := rfl

/-- C3 (amended): for every non-empty trade log the computed metrics are
returned as values (not raised), with win rate equal to
`winning trades / total trades × 100`; for an empty or missing trade log
`calculate_metrics` returns the empty dictionary (`none`), omitting the
win rate instead of returning `0`. -/
theorem c3_win_rate (pnls : List ℚ) (eqc : Option (List ℚ)) (cap : ℚ)
    (hne : pnls ≠ []) :
    (∃ m, calculate_metrics (some pnls) eqc cap = some m ∧
      m.win_rate_pct =
        ((pnls.filter fun p => decide (0 < p)).length : ℚ) / (pnls.length : ℚ) * 100) ∧
    calculate_metrics (some []) eqc cap = none ∧
    calculate_metrics none eqc cap = none := by
  have hlen : ¬ pnls.length = 0 := by
    simpa [List.length_eq_zero] using hne
  have hpos : pnls.length > 0 := Nat.pos_of_ne_zero hlen
  refine ⟨?_, rfl, rfl⟩
  simp only [calculate_metrics, if_neg hlen]
  exact ⟨_, rfl, by simp [hpos]⟩

/-- C3, witness: the amended statement applied to the concrete trade log
`[5, -3]`. -/
theorem c3_witness :
    (∃ m, calculate_metrics (some [5, -3]) (some []) 10000 = some m ∧
      m.win_rate_pct =
        ((([5, -3] : List ℚ).filter fun p => decide (0 < p)).length : ℚ) /
          (([5, -3] : List ℚ).length : ℚ) * 100) ∧
    calculate_metrics (some []) (some []) 10000 = none ∧
    calculate_metrics none (some []) 10000 = none :=
  c3_win_rate [5, -3] (some []) 10000 (by simp)

/-- Every drawdown entry computed against a positive running maximum lies
in `(-100, 0]`. -/
theorem ddFrom_bounds (l : List ℚ) :
    ∀ m : ℚ, 0 < m → (∀ x ∈ l, 0 < x) →
      ∀ d ∈ List.zipWith (fun e mm => (e - mm) / mm * 100) l (runningMaxFrom m l),
        -100 < d ∧ d ≤ 0 := by
  induction l with
  | nil => intro m _ _ d hd; simp [runningMaxFrom] at hd
  | cons x xs ih =>
    intro m hm hl d hd
    have hx : 0 < x := hl x (by simp)
    have hM : 0 < max m x := lt_max_of_lt_left hm
    have hxM : x ≤ max m x := le_max_right m x
    simp only [runningMaxFrom, List.zipWith_cons_cons, List.mem_cons] at hd
    rcases hd with rfl | hd
    · have hM' : max m x ≠ 0 := ne_of_gt hM
      have hrw : (x - max m x) / max m x * 100 = x / max m x * 100 - 100 := by
        field_simp
        ring
      have hq : 0 < x / max m x := div_pos hx hM
      have hle : x / max m x ≤ 1 := (div_le_one hM).mpr hxM
      constructor
      · rw [hrw]; linarith
      · rw [hrw]; linarith
    · exact ih (max m x) hM (fun y hy => hl y (by simp [hy])) d hd

/-- The drawdown entries against running maximum seeded at `m` all vanish
exactly when the series is a `≤`-chain from `m`. -/
theorem ddFrom_zero_iff (l : List ℚ) :
    ∀ m : ℚ, 0 < m → (∀ x ∈ l, 0 < x) →
      ((∀ d ∈ List.zipWith (fun e mm => (e - mm) / mm * 100) l (runningMaxFrom m l), d = 0) ↔
        List.Chain (· ≤ ·) m l) := by
  induction l with
  | nil => intro m _ _; simp [runningMaxFrom, List.Chain.nil]
  | cons x xs ih =>
    intro m hm hl
    have hx : 0 < x := hl x (by simp)
    have hM : 0 < max m x := lt_max_of_lt_left hm
    have hM' : max m x ≠ 0 := ne_of_gt hM
    simp only [runningMaxFrom, List.zipWith_cons_cons, List.mem_cons, List.chain_cons]
    constructor
    · intro h
      have hhead : (x - max m x) / max m x * 100 = 0 := h _ (Or.inl rfl)
      have hx_eq : x = max m x := by
        have h0 : x - max m x = 0 := by
          rcases mul_eq_zero.mp hhead with h' | h'
          · rcases div_eq_zero_iff.mp h' with h'' | h''
            · linarith
            · exact absurd h'' hM'
          · norm_num at h'
        linarith
      have hmx : m ≤ x := by
        rcases le_total m x with h' | h'
        · exact h'
        · rw [max_eq_left h'] at hx_eq; linarith
      refine ⟨hmx, ?_⟩
      have hmax : max m x = x := max_eq_right hmx
      rw [hmax] at h
      exact (ih x hx (fun y hy => hl y (by simp [hy]))).mp (fun d hd => h d (Or.inr hd))
    · rintro ⟨hmx, hchain⟩
      have hmax : max m x = x := max_eq_right hmx
      intro d hd
      rcases hd with rfl | hd
      · rw [hmax]
        simp
      · rw [hmax] at hd
        exact (ih x hx (fun y hy => hl y (by simp [hy]))).mpr hchain d hd

/-- A left fold of `min` is bounded by its seed. -/
theorem foldl_min_le_seed (l : List ℚ) : ∀ a : ℚ, l.foldl min a ≤ a := by
  induction l with
  | nil => intro a; simp
  | cons x xs ih =>
    intro a
    calc xs.foldl min (min a x) ≤ min a x := ih (min a x)
      _ ≤ a := min_le_left a x

/-- A left fold of `min` is bounded by every list element. -/
theorem foldl_min_le_mem (l : List ℚ) : ∀ a : ℚ, ∀ x ∈ l, l.foldl min a ≤ x := by
  induction l with
  | nil => intro a x hx; simp at hx
  | cons y ys ih =>
    intro a x hx
    rcases List.mem_cons.mp hx with rfl | hx
    · simp only [List.foldl_cons]
      calc ys.foldl min (min a x) ≤ min a x := foldl_min_le_seed ys (min a x)
        _ ≤ x := min_le_right a x
    · exact ih (min a y) x hx

/-- A left fold of `min` is attained by the seed or by a list element. -/
theorem foldl_min_mem (l : List ℚ) : ∀ a : ℚ, l.foldl min a ∈ a :: l := by
  induction l with
  | nil => intro a; simp
  | cons x xs ih =>
    intro a
    have h := ih (min a x)
    simp only [List.foldl_cons, List.mem_cons] at h ⊢
    rcases h with heq | hmem
    · rcases le_total a x with hax | hxa
      · exact Or.inl (heq.trans (min_eq_left hax))
      · exact Or.inr (Or.inl (heq.trans (min_eq_right hxa)))
    · exact Or.inr (Or.inr hmem)

/-- C5: for every non-empty equity curve of positive values, the max
drawdown (`min` of `(equity − running_max) / running_max × 100`) is a
defined value in `[−100, 0]`, and it is `0` exactly when the equity curve
is non-decreasing throughout. -/
theorem c5_max_drawdown_bounds (eqc : List ℚ) (hne : eqc ≠ [])
    (hpos : ∀ x ∈ eqc, 0 < x) :
    ∃ d, max_drawdown eqc = some d ∧ -100 ≤ d ∧ d ≤ 0 ∧
      (d = 0 ↔ List.Chain' (· ≤ ·) eqc) := by
  obtain ⟨x, xs, rfl⟩ := List.exists_cons_of_ne_nil hne
  have hx : 0 < x := hpos x (by simp)
  have hxs : ∀ y ∈ xs, 0 < y := fun y hy => hpos y (by simp [hy])
  have hdd : drawdown_series (x :: xs) =
      0 :: List.zipWith (fun e mm => (e - mm) / mm * 100) xs (runningMaxFrom x xs) := by
    simp [drawdown_series, running_max]
  set rest := List.zipWith (fun e mm => (e - mm) / mm * 100) xs (runningMaxFrom x xs) with hrest
  have hbounds := ddFrom_bounds xs x hx hxs
  refine ⟨rest.foldl min 0, ?_, ?_, ?_, ?_⟩
  · simp [max_drawdown, hdd]
  · rcases List.mem_cons.mp (foldl_min_mem rest 0) with heq | hmem
    · rw [heq]; norm_num
    · exact le_of_lt (hbounds _ hmem).1
  · exact foldl_min_le_seed rest 0
  · constructor
    · intro h0
      show List.Chain (· ≤ ·) x xs
      rw [← ddFrom_zero_iff xs x hx hxs]
      intro d hd
      have h1 : rest.foldl min 0 ≤ d := foldl_min_le_mem rest 0 d hd
      have h2 : d ≤ 0 := (hbounds d hd).2
      rw [h0] at h1
      linarith
    · intro hchain
      have hzero : ∀ d ∈ rest, d = 0 :=
        (ddFrom_zero_iff xs x hx hxs).mpr hchain
      rcases List.mem_cons.mp (foldl_min_mem rest 0) with heq | hmem
      · exact heq
      · exact hzero _ hmem

/-- C5, witness: the drawdown bound applied to the concrete equity curve
`[100, 50, 75]` (positive values, not non-decreasing). -/
theorem c5_witness :
    ∃ d, max_drawdown [100, 50, 75] = some d ∧ -100 ≤ d ∧ d ≤ 0 ∧
      (d = 0 ↔ List.Chain' (· ≤ ·) ([100, 50, 75] : List ℚ)) :=
  c5_max_drawdown_bounds [100, 50, 75] (by simp)
    (by intro x hx; fin_cases hx <;> norm_num)

/-- Winners and losers never outnumber the trades: the two PnL filters
are disjoint. -/
theorem winners_losers_le (l : List ℚ) :
    (l.filter fun p => decide (0 < p)).length +
      (l.filter fun p => decide (p < 0)).length ≤ l.length := by
  induction l with
  | nil => simp
  | cons a tl ih =>
    by_cases h1 : (0 : ℚ) < a
    · have h2 : ¬ a < (0 : ℚ) := by linarith
      simp only [List.filter_cons, h1, h2, decide_eq_true_eq, if_true, if_false, List.length_cons]
      omega
    · by_cases h2 : a < (0 : ℚ)
      · simp only [List.filter_cons, h1, h2, decide_eq_true_eq, if_true, if_false, List.length_cons]
        omega
      · simp only [List.filter_cons, h1, h2, decide_eq_true_eq, if_true, if_false, List.length_cons]
        omega

/-- With a breakeven trade present, the winner and loser counts together
fall strictly short of the trade count. -/
theorem winners_losers_lt (l : List ℚ) (h : ∃ p ∈ l, p = 0) :
    (l.filter fun p => decide (0 < p)).length +
      (l.filter fun p => decide (p < 0)).length < l.length := by
  induction l with
  | nil => simp at h
  | cons a tl ih =>
    rcases h with ⟨p, hp, rfl⟩
    rcases List.mem_cons.mp hp with rfl | hmem
    · have h1 : ¬ (0 : ℚ) < 0 := lt_irrefl 0
      have h2 : ¬ (0 : ℚ) < 0 := lt_irrefl 0
      simp only [List.filter_cons, h1, decide_eq_true_eq, if_true, if_false, List.length_cons]
      have := winners_losers_le tl
      omega
    · have htl := ih ⟨0, hmem, rfl⟩
      by_cases h1 : (0 : ℚ) < a
      · have h2 : ¬ a < (0 : ℚ) := by linarith
        simp only [List.filter_cons, h1, h2, decide_eq_true_eq, if_true, if_false, List.length_cons]
        omega
      · by_cases h2 : a < (0 : ℚ)
        · simp only [List.filter_cons, h1, h2, decide_eq_true_eq, if_true, if_false, List.length_cons]
          omega
        · simp only [List.filter_cons, h1, h2, decide_eq_true_eq, if_true, if_false, List.length_cons]
          omega

/-- The streak computation reads trades only through their `Win` flag
`PnL > 0`. -/
theorem streakSizes_congr (l₁ l₂ : List ℚ) (w : Bool)
    (h : l₁.map (fun p => decide (0 < p)) = l₂.map (fun p => decide (0 < p))) :
    streakSizes l₁ w = streakSizes l₂ w := by
  simp only [streakSizes]
  rw [h]

/-- C9: a zero-PnL trade counts in neither `winning_trades` nor
`losing_trades` (`winning + losing ≤ total`, strictly when a breakeven
trade exists); appending a breakeven trade leaves the win count unchanged
while growing the total, so it strictly lowers the win rate whenever any
trade won; and the streak computation flags a breakeven trade exactly
like a loss (appending `0` and appending `-1` give identical streak
groups). -/
theorem c9_breakeven_trades (pnls : List ℚ) (eqc : Option (List ℚ)) (cap : ℚ)
    (hne : pnls ≠ []) :
    ∃ m m', calculate_metrics (some pnls) eqc cap = some m ∧
      calculate_metrics (some (pnls ++ [0])) eqc cap = some m' ∧
      m.winning_trades + m.losing_trades ≤ m.total_trades ∧
      ((∃ p ∈ pnls, p = 0) → m.winning_trades + m.losing_trades < m.total_trades) ∧
      m'.winning_trades = m.winning_trades ∧
      m'.losing_trades = m.losing_trades ∧
      m'.total_trades = m.total_trades + 1 ∧
      (0 < m.winning_trades → m'.win_rate_pct < m.win_rate_pct) ∧
      (∀ w, streakSizes (pnls ++ [0]) w = streakSizes (pnls ++ [-1]) w) := by
  have hlen : ¬ pnls.length = 0 := by simpa [List.length_eq_zero] using hne
  have hpos : pnls.length > 0 := Nat.pos_of_ne_zero hlen
  have hlen' : ¬ (pnls ++ [(0 : ℚ)]).length = 0 := by simp
  have hpos' : (pnls ++ [(0 : ℚ)]).length > 0 := Nat.pos_of_ne_zero hlen'
  have hfw : ((pnls ++ [(0 : ℚ)]).filter fun p => decide (0 < p)) =
      pnls.filter fun p => decide (0 < p) := by
    simp [List.filter_append]
  have hfl : ((pnls ++ [(0 : ℚ)]).filter fun p => decide (p < 0)) =
      pnls.filter fun p => decide (p < 0) := by
    simp [List.filter_append]
  simp only [calculate_metrics, if_neg hlen, if_neg hlen']
  refine ⟨_, _, rfl, rfl, ?_, ?_, ?_, ?_, ?_, ?_, ?_⟩
  · simpa using winners_losers_le pnls
  · intro h
    simpa using winners_losers_lt pnls h
  · simpa using congrArg List.length hfw
  · simpa using congrArg List.length hfl
  · simp
  · intro hW
    dsimp only at hW ⊢
    have hW' : 0 < ((pnls.filter fun p => decide (0 < p)).length : ℚ) := by
      have h0 : 0 < (pnls.filter fun p => decide (0 < p)).length := by simpa using hW
      exact_mod_cast h0
    have hN : 0 < ((pnls.length : ℚ)) := by exact_mod_cast hpos
    simp only [if_pos hpos, if_pos hpos', hfw]
    have hlen_app : (((pnls ++ [(0 : ℚ)]).length : ℚ)) = (pnls.length : ℚ) + 1 := by
      push_cast [List.length_append, List.length_singleton]
      ring
    rw [hlen_app]
    have hdivlt :
        ((pnls.filter fun p => decide (0 < p)).length : ℚ) / ((pnls.length : ℚ) + 1) <
          ((pnls.filter fun p => decide (0 < p)).length : ℚ) / (pnls.length : ℚ) :=
      div_lt_div_of_pos_left hW' hN (by linarith)
    exact mul_lt_mul_of_pos_right hdivlt (by norm_num)
  · intro w
    apply streakSizes_congr
    have h01 : (decide ((0 : ℚ) < 0)) = (decide ((0 : ℚ) < -1)) := by norm_num
    simp [h01]

/-- C9, witness: the breakeven accounting applied to the concrete trade
log `[2, 0, -1]`, which contains a zero-PnL trade and a winner. -/
theorem c9_witness :
    ∃ m m', calculate_metrics (some [2, 0, -1]) (some []) 10000 = some m ∧
      calculate_metrics (some ([2, 0, -1] ++ [0])) (some []) 10000 = some m' ∧
      m.winning_trades + m.losing_trades ≤ m.total_trades ∧
      ((∃ p ∈ ([2, 0, -1] : List ℚ), p = 0) →
        m.winning_trades + m.losing_trades < m.total_trades) ∧
      m'.winning_trades = m.winning_trades ∧
      m'.losing_trades = m.losing_trades ∧
      m'.total_trades = m.total_trades + 1 ∧
      (0 < m.winning_trades → m'.win_rate_pct < m.win_rate_pct) ∧
      (∀ w, streakSizes ([2, 0, -1] ++ [0]) w = streakSizes ([2, 0, -1] ++ [-1]) w) :=
  c9_breakeven_trades [2, 0, -1] (some []) 10000 (by simp)

/-- C10: computing the metrics leaves the analyzer unchanged — the method
works on a copy of the trades table and never assigns to
`self.trades_df` or `self.equity_curve`, and the returned metrics are a
pure function of the (unchanged) inputs. -/
theorem c10_calculate_metrics_frame (s : PerformanceAnalyzer) (cap : ℚ) :
    (calculate_metricsS s cap).2 = s ∧
    (calculate_metricsS s cap).1 = calculate_metrics s.trades_df s.equity_curve cap := by
  cases h : s.trades_df with
  | none => simp [calculate_metricsS, calculate_metrics, h]
  | some tdf =>
    by_cases h0 : tdf.length = 0
    · simp [calculate_metricsS, calculate_metrics, h, h0]
    · simp [calculate_metricsS, calculate_metrics, h, h0]

/-- An input row with every column defined. -/
def inrow1 : InRow :=
  { open_ := some 1, high := some 1, low := some 1, close := some 1,
    volume := some 1, rsi_14 := some 50, macd := some 1, macd_signal := some 0,
    bb_upper := some 2, bb_lower := some 0, datetime := 0 }

/-- C4, counterexample: with one input row whose aligned prediction is
NaN, everything is filtered out — yet `prepare_data_for_backtest` simply
returns the empty bar series, raising nothing, while the specified
behaviour (`prepare_data_specced`) would fail fast with
`InsufficientDataError`.  No `InsufficientDataError` (or any error path)
exists in the source. -/
theorem c4_counterexample :
    prepare_data_for_backtest [inrow1] [none] = [] ∧
    prepare_data_specced [inrow1] [none] =
      Except.error BacktestError.InsufficientData := by
  constructor <;> rfl

/-- C4 (amended): `prepare_data_for_backtest` excludes exactly the rows
with an undefined column or prediction and always returns the surviving
rows as a plain (possibly empty) series: an empty result is returned to
the caller like any other, no `InsufficientDataError` is raised and the
simulation is invoked regardless. -/
theorem c4_filtering (df : List InRow) (preds : List (Option ℚ)) :
    ((prepare_data_for_backtest df preds = []) ↔
      ∀ rp ∈ df.zip (pad_predictions df.length preds), rowToBar rp.1 rp.2 = none) ∧
    (∀ b ∈ prepare_data_for_backtest df preds,
      ∃ rp ∈ df.zip (pad_predictions df.length preds), rowToBar rp.1 rp.2 = some b) := by
  constructor
  · simp [prepare_data_for_backtest, List.filterMap_eq_nil_iff]
  · intro b hb
    simp only [prepare_data_for_backtest, List.mem_filterMap] at hb
    obtain ⟨rp, hrp, hsome⟩ := hb
    exact ⟨rp, hrp, hsome⟩

/-- C4, witness: the filtering characterization applied to the concrete
all-NaN-prediction input: the empty result is the value returned. -/
theorem c4_witness :
    prepare_data_for_backtest [inrow1] [none] = [] :=
  (c4_filtering [inrow1] [none]).1.mpr (by decide)

/-- The best-so-far sweep returns a candidate from the pool, scoring at
least every candidate, and every candidate strictly before it scores
strictly less (first-encountered tie-break). -/
theorem best_so_far_spec {α : Type} (score : α → ℚ) :
    ∀ (l : List α) (best : α),
      best_so_far score best l ∈ best :: l ∧
      (∀ x ∈ best :: l, score x ≤ score (best_so_far score best l)) ∧
      (best_so_far score best l = best ∨
        ∃ l₁ l₂, l = l₁ ++ best_so_far score best l :: l₂ ∧
          ∀ x ∈ best :: l₁, score x < score (best_so_far score best l)) := by
  intro l
  induction l with
  | nil =>
    intro best
    refine ⟨by simp [best_so_far], ?_, Or.inl rfl⟩
    intro x hx
    rcases List.mem_cons.mp hx with rfl | hx
    · simp [best_so_far]
    · simp at hx
  | cons q qs ih =>
    intro best
    by_cases hlt : score best < score q
    · have hstep : best_so_far score best (q :: qs) = best_so_far score q qs := by
        show best_so_far score (if score best < score q then q else best) qs =
          best_so_far score q qs
        rw [if_pos hlt]
      obtain ⟨hmem, hbound, hfirst⟩ := ih q
      rw [hstep]
      refine ⟨?_, ?_, ?_⟩
      · rcases List.mem_cons.mp hmem with heq | hmem'
        · simp [heq]
        · simp [List.mem_cons.mpr (Or.inr (List.mem_cons.mpr (Or.inr hmem')))]
      · intro x hx
        rcases List.mem_cons.mp hx with rfl | hx'
        · calc score x ≤ score q := le_of_lt hlt
            _ ≤ score (best_so_far score q qs) := hbound q (by simp)
        · exact hbound x hx'
      · rcases hfirst with heq | ⟨l₁, l₂, hsplit, hstrict⟩
        · refine Or.inr ⟨[], qs, by simp [heq], ?_⟩
          intro x hx
          rcases List.mem_cons.mp hx with rfl | hx'
          · rw [heq]; exact hlt
          · simp at hx'
        · refine Or.inr ⟨q :: l₁, l₂, by rw [List.cons_append, ← hsplit], ?_⟩
          intro x hx
          rcases List.mem_cons.mp hx with rfl | hx'
          · calc score x < score q := hlt
              _ ≤ score (best_so_far score q qs) := hbound q (by simp)
            -- strictness via the chain below is enough
          · exact hstrict x hx'
    · have hstep : best_so_far score best (q :: qs) = best_so_far score best qs := by
        show best_so_far score (if score best < score q then q else best) qs =
          best_so_far score best qs
        rw [if_neg hlt]
      obtain ⟨hmem, hbound, hfirst⟩ := ih best
      rw [hstep]
      refine ⟨?_, ?_, ?_⟩
      · rcases List.mem_cons.mp hmem with heq | hmem'
        · simp [heq]
        · simp [List.mem_cons.mpr (Or.inr (List.mem_cons.mpr (Or.inr hmem')))]
      · intro x hx
        rcases List.mem_cons.mp hx with rfl | hx'
        · exact hbound x (by simp)
        · rcases List.mem_cons.mp hx' with rfl | hx''
          · calc score x ≤ score best := not_lt.mp hlt
              _ ≤ score (best_so_far score best qs) := hbound best (by simp)
          · exact hbound x (by simp [hx''])
      · rcases hfirst with heq | ⟨l₁, l₂, hsplit, hstrict⟩
        · exact Or.inl heq
        · refine Or.inr ⟨q :: l₁, l₂, by rw [List.cons_append, ← hsplit], ?_⟩
          intro x hx
          rcases List.mem_cons.mp hx with rfl | hx'
          · exact hstrict x (by simp)
          · rcases List.mem_cons.mp hx' with rfl | hx''
            · calc score x ≤ score best := not_lt.mp hlt
                _ < score (best_so_far score best qs) := hstrict best (by simp)
            · exact hstrict x (by simp [hx''])

/-- Membership in the enumerated Cartesian product. -/
theorem mem_optimization_grid (th sl tp sz : ℚ)
    (hth : th ∈ threshold_grid) (hsl : sl ∈ stop_loss_grid)
    (htp : tp ∈ take_profit_grid) (hsz : sz ∈ position_size_grid) :
    gridConfig th sl tp sz ∈ optimization_grid := by
  simp only [optimization_grid, List.mem_flatMap, List.mem_map]
  exact ⟨th, hth, sl, hsl, tp, htp, sz, hsz, rfl⟩

/-- C7: the parameter search enumerates the full Cartesian product of the
four parameter lists, evaluates exactly the combinations with
`take_profit_pct > stop_loss_pct`, and returns a combination of the grid
satisfying the constraint that maximizes the objective, every candidate
enumerated before it scoring strictly less (first-encountered
tie-break). -/
theorem c7_grid_search (score : StrategyConfig → ℚ) :
    (∀ th ∈ threshold_grid, ∀ sl ∈ stop_loss_grid, ∀ tp ∈ take_profit_grid,
      ∀ sz ∈ position_size_grid, gridConfig th sl tp sz ∈ optimization_grid) ∧
    (∀ p ∈ optimization_grid.filter optimize_constraint,
      p ∈ optimization_grid ∧ p.take_profit_pct > p.stop_loss_pct) ∧
    (∀ p ∈ optimization_grid, p.take_profit_pct > p.stop_loss_pct →
      p ∈ optimization_grid.filter optimize_constraint) ∧
    (∃ b, optimize_strategy score = some b ∧
      b ∈ optimization_grid ∧ b.take_profit_pct > b.stop_loss_pct ∧
      (∀ p ∈ optimization_grid, p.take_profit_pct > p.stop_loss_pct → score p ≤ score b) ∧
      ∃ l₁ l₂, optimization_grid.filter optimize_constraint = l₁ ++ b :: l₂ ∧
        ∀ p ∈ l₁, score p < score b) := by
  refine ⟨fun th hth sl hsl tp htp sz hsz => mem_optimization_grid th sl tp sz hth hsl htp hsz,
    ?_, ?_, ?_⟩
  · intro p hp
    have h := List.mem_filter.mp hp
    exact ⟨h.1, by simpa [optimize_constraint] using h.2⟩
  · intro p hp hc
    exact List.mem_filter.mpr ⟨hp, by simpa [optimize_constraint] using hc⟩
  · have hmem0 : gridConfig (1/1000) (3/1000) (6/1000) (1/2) ∈
        optimization_grid.filter optimize_constraint := by
      refine List.mem_filter.mpr ⟨?_, ?_⟩
      · refine mem_optimization_grid _ _ _ _ ?_ ?_ ?_ ?_ <;> simp [threshold_grid,
          stop_loss_grid, take_profit_grid, position_size_grid]
      · simp only [optimize_constraint, gridConfig, decide_eq_true_eq]
        norm_num
    obtain ⟨c, cs, hc⟩ :=
      List.exists_cons_of_ne_nil (List.ne_nil_of_mem hmem0)
    have hsel : optimize_strategy score = some (best_so_far score c cs) := by
      simp [optimize_strategy, hc, select_best]
    obtain ⟨hmem, hbound, hfirst⟩ := best_so_far_spec score cs c
    have hmem' : best_so_far score c cs ∈ optimization_grid.filter optimize_constraint := by
      rw [hc]
      exact hmem
    have hginfo := List.mem_filter.mp hmem'
    refine ⟨best_so_far score c cs, hsel, hginfo.1,
      by simpa [optimize_constraint] using hginfo.2, ?_, ?_⟩
    · intro p hp hcp
      have hpf : p ∈ optimization_grid.filter optimize_constraint :=
        List.mem_filter.mpr ⟨hp, by simpa [optimize_constraint] using hcp⟩
      rw [hc] at hpf
      exact hbound p hpf
    · rcases hfirst with heq | ⟨l₁, l₂, hsplit, hstrict⟩
      · exact ⟨[], cs, by rw [hc, heq]; simp, by simp⟩
      · refine ⟨c :: l₁, l₂, by rw [hc, List.cons_append, ← hsplit], ?_⟩
        intro p hp
        exact hstrict p hp

/-- C7, witness: the grid-search characterization at the concrete
objective `take_profit_pct` — the search returns a best candidate. -/
theorem c7_witness :
    (optimize_strategy (fun p => p.take_profit_pct)).isSome = true := by
  obtain ⟨b, hb, -⟩ := (c7_grid_search (fun p => p.take_profit_pct)).2.2.2
  simp [hb]
